import Mathlib

/-!
# Verification of the claude-mcp-scheduler task-scheduling core

Shallow embedding of the scheduling and execution-coordination subsystem of
the claude-mcp-scheduler repository (src/scheduler.ts, src/mcp-client.ts,
src/types/config.ts), together with proofs about the spec's claims.

Modelling conventions:
* TypeScript exceptions are modelled with `Except` / an `Option` error
  component; a method that mutates `this` and may throw is a function from
  the old state to the new state paired with the error, since mutations
  performed before a `throw` persist.
* External collaborators (node-cron's `validate`, the Anthropic prompt
  executor, the MCP transport, `fs.mkdir` / `fs.writeFile`) are parameters:
  an environment record fixes the outcome each external call would have.
* `Map<string, T>` is an insertion-ordered association list with unique
  keys; `Map.set` on a fresh key appends, `Map.delete` removes the entry.
* Log lines are modelled as events only where a claim refers to them.
-/

set_option maxRecDepth 4000

/-- Source: `Schedule` from src/types/config.ts: name, cron, enabled, prompt,
optional outputPath. -/
structure Schedule where
  name : String
  cron : String
  enabled : Bool
  prompt : String
  outputPath : Option String
deriving Repr, DecidableEq

/-- One registry entry of `Scheduler.tasks` (interface `ScheduledTask` in
src/scheduler.ts): the schedule plus the opaque node-cron task handle,
modelled as a numeric handle id. -/
structure TaskEntry where
  schedule : Schedule
  handle : Nat
deriving Repr, DecidableEq

/-- The mutable fields of class `Scheduler` that the registry operations
touch: the `tasks` map, a counter supplying fresh trigger handles, and a
log `created` of the names for which `cron.schedule` has been invoked
(one entry per trigger ever created). `claudeHandler` and `mcpClient` are
the only other fields of the class; they carry no per-job execution state. -/
structure SchedState where
  tasks : List (String × TaskEntry)
  nextHandle : Nat
  created : List String
deriving Repr, DecidableEq

namespace SchedState

/-- The empty registry of a freshly constructed `Scheduler`. -/
def init : SchedState := ⟨[], 0, []⟩

end SchedState

/-- First-occurrence lookup in an association list (`Map.get`). -/
def lookupKey (l : List (String × TaskEntry)) (n : String) : Option TaskEntry :=
  match l with
  | [] => none
  | (k, e) :: rest => if k = n then some e else lookupKey rest n

/-- Source: `Map.has`. -/
def hasKey (l : List (String × TaskEntry)) (n : String) : Bool :=
  (lookupKey l n).isSome

/-- Source: `Map.delete`: remove the (unique) entry with the given key, keeping
the others in order. -/
def eraseKey (l : List (String × TaskEntry)) (n : String) :
    List (String × TaskEntry) :=
  match l with
  | [] => []
  | (k, e) :: rest => if k = n then rest else (k, e) :: eraseKey rest n

/-- Errors thrown by `Scheduler.scheduleTask` (both are `SchedulerError`,
the configuration-error kind). -/
inductive ConfigError where
  | alreadyScheduled (name : String)
  | invalidCron (name cron : String)
deriving Repr, DecidableEq

/-- Source: `Scheduler.scheduleTask(schedule)` from src/scheduler.ts lines 44-71:
throw if the name is already registered; throw if `cron.validate` rejects
the cadence; otherwise create the trigger via `cron.schedule` (recorded in
`created`, consuming a fresh handle) and register the entry.  `validate`
is node-cron's external validator. -/
def scheduleTask (validate : String → Bool) (st : SchedState) (s : Schedule) :
    Except ConfigError SchedState :=
  if hasKey st.tasks s.name then
    .error (.alreadyScheduled s.name)
  else if !(validate s.cron) then
    .error (.invalidCron s.name s.cron)
  else
    .ok { tasks := st.tasks ++ [(s.name, ⟨s, st.nextHandle⟩)],
          nextHandle := st.nextHandle + 1,
          created := st.created ++ [s.name] }

/-- The loop body of `Scheduler.start(schedules)` (src/scheduler.ts lines
27-42): iterate the batch in order; schedule each enabled definition,
skip disabled ones.  `scheduleTask` is not caught, so the first throw
aborts the loop with the registry as mutated so far; the result is the
final state paired with the escaped error, if any. -/
def startAux (validate : String → Bool) (st : SchedState) :
    List Schedule → SchedState × Option ConfigError
  | [] => (st, none)
  | s :: rest =>
    if s.enabled then
      match scheduleTask validate st s with
      | .ok st' => startAux validate st' rest
      | .error e => (st, some e)
    else
      startAux validate st rest

/-- Source: `Scheduler.start`. -/
def start (validate : String → Bool) (st : SchedState)
    (schedules : List Schedule) : SchedState × Option ConfigError :=
  startAux validate st schedules

/-- Source: `Scheduler.isTaskActive(scheduleName)` (src/scheduler.ts lines 183-185). -/
def isTaskActive (st : SchedState) (n : String) : Bool :=
  hasKey st.tasks n

/-- One row of `Scheduler.getActiveTasks()`: name, cron, and the next-run
estimate, which `getNextRunTime` always leaves `null`. -/
structure ActiveTaskView where
  name : String
  cron : String
  nextRun : Option Unit
deriving Repr, DecidableEq

/-- Source: `Scheduler.getNextRunTime` (src/scheduler.ts lines 177-181): always
`null`. -/
def getNextRunTime (_cronExpression : String) : Option Unit := none

/-- Source: `Scheduler.getActiveTasks()` (src/scheduler.ts lines 169-175). -/
def getActiveTasks (st : SchedState) : List ActiveTaskView :=
  st.tasks.map (fun p => ⟨p.2.schedule.name, p.2.schedule.cron,
    getNextRunTime p.2.schedule.cron⟩)

/-- Result of `Scheduler.stop(scheduleName?)` (src/scheduler.ts lines
148-167): the new state, the handles on which `task.stop()` was called,
and whether the "Task not found" warning was logged. The method never
throws. -/
structure StopResult where
  state : SchedState
  stoppedHandles : List Nat
  warnedNotFound : Bool
deriving Repr, DecidableEq

/-- Source: `Scheduler.stop`: with a name, stop and delete that one entry (warn if
absent); with no name, stop every handle and clear the map. -/
def stop (st : SchedState) (scheduleName : Option String) : StopResult :=
  match scheduleName with
  | some n =>
    match lookupKey st.tasks n with
    | some e =>
      ⟨{ st with tasks := eraseKey st.tasks n }, [e.handle], false⟩
    | none =>
      ⟨st, [], true⟩
  | none =>
    ⟨{ st with tasks := [] }, st.tasks.map (fun p => p.2.handle), false⟩

/-! ## Output-path resolution (`Scheduler.saveOutput`, lines 112-131)

JavaScript `String.prototype.replace` with a string pattern substitutes
only the first (leftmost) occurrence.  `findSplit pat s` returns the text
before and after the leftmost occurrence of `pat` in `s`, or `none` when
`pat` does not occur.  (Special `$`-sequences in the replacement string are
outside the modelled fragment; the replacements used by `saveOutput` are a
job name, a sanitized timestamp and a date.) -/

/-- Split a character list at the leftmost occurrence of `pat`. -/
def findSplit (pat : List Char) : List Char → Option (List Char × List Char)
  | [] => if pat = [] then some ([], []) else none
  | c :: rest =>
    if pat.isPrefixOf (c :: rest) then
      some ([], (c :: rest).drop pat.length)
    else
      match findSplit pat rest with
      | some (pre, suf) => some (c :: pre, suf)
      | none => none

/-- Source: `s.replace(pat, repl)` with a string pattern: substitute the leftmost
occurrence only; return `s` unchanged when `pat` does not occur. -/
def replaceFirst (s pat repl : String) : String :=
  match findSplit pat.data s.data with
  | some (pre, suf) => ⟨pre ++ repl.data ++ suf⟩
  | none => s

/-- Source: `new Date().toISOString().replace(/[:.]/g, '-')`: the global regex
replaces every ':' and '.' of the ISO timestamp by '-'. -/
def sanitizeTimestamp (iso : String) : String :=
  ⟨iso.data.map (fun c => if c = ':' ∨ c = '.' then '-' else c)⟩

/-- Source: `new Date().toISOString().split('T')[0] ?? ''`: the text before the
first 'T' of the ISO timestamp (the `YYYY-MM-DD` date portion; the whole
string when no 'T' occurs, and the `?? ''` arm is unreachable since
`split` always yields a first component). -/
def datePart (iso : String) : String :=
  ⟨iso.data.takeWhile (fun c => c != 'T')⟩

/-- The `filename` computation of `saveOutput`: substitute `{name}`, then
`{timestamp}`, then `{date}` — each via `String.replace`, so each at its
first occurrence only.  `iso` is the ISO rendering of the wall-clock time. -/
def resolveTemplate (iso scheduleName template : String) : String :=
  replaceFirst
    (replaceFirst
      (replaceFirst template "{name}" scheduleName)
      "{timestamp}" (sanitizeTimestamp iso))
    "{date}" (datePart iso)

/-- A POSIX path is absolute when it starts with '/'. -/
def isAbsolutePath (p : String) : Bool :=
  p.data.headD ' ' == '/'

/-- Source: `path.resolve(filename)`: an absolute path is kept, a relative one is
joined onto the process working directory.  (`.`/`..` normalization is not
modelled; no claim involves such segments.) -/
def pathResolve (cwd p : String) : String :=
  if isAbsolutePath p then p else ⟨cwd.data ++ '/' :: p.data⟩

/-- The full path `saveOutput` writes to: template expansion followed by
`path.resolve` against the working directory. -/
def fullOutputPath (cwd iso scheduleName template : String) : String :=
  pathResolve cwd (resolveTemplate iso scheduleName template)

/-! ## One firing of the execution routine (`Scheduler.executeSchedule`,
lines 73-110, and `Scheduler.saveOutput`, lines 112-146)

A firing performs, in order: readiness check with reconnect, prompt
execution, conditional output persistence, outcome logging.  The external
outcomes are fixed by an `ExecEnv`; the observable behaviour of a firing is
the ordered list of `ExecEv` events it emits plus the error, if any, that
escapes. -/

/-- Outcomes the environment fixes for the external calls of one firing. -/
structure ExecEnv where
  /-- Source: `mcpClient.isReady()` at the start of the firing. -/
  isReady : Bool
  /-- Whether `mcpClient.connect()` succeeds when invoked. -/
  connectOk : Bool
  /-- Source: `claudeHandler.executePrompt`: `some result` or `none` for a throw. -/
  execResult : Option String
  /-- Whether `fs.mkdir` succeeds when invoked. -/
  mkdirOk : Bool
  /-- Whether `fs.writeFile` succeeds when invoked. -/
  writeOk : Bool
  /-- ISO rendering of `new Date()` during `saveOutput`. -/
  iso : String
  /-- Process working directory seen by `path.resolve`. -/
  cwd : String
deriving Repr, DecidableEq

/-- Claim-relevant events of one firing, in program order. -/
inductive ExecEv where
  /-- Source: `await this.mcpClient.connect()` was invoked. -/
  | connectCall
  /-- Source: `await this.claudeHandler.executePrompt(prompt, mcpClient)`. -/
  | execCall (prompt : String)
  /-- Source: `await mkdir(dir, { recursive: true })`. -/
  | mkdirCall
  /-- Source: `await writeFile(fullPath, content, 'utf-8')`. -/
  | writeCall (path content : String)
  /-- Source: `logger.error('Failed to save output', ...)` inside `saveOutput`. -/
  | saveErrorLog
  /-- Source: `logger.info('Scheduled task completed', { duration, outputSaved })`. -/
  | completedLog (outputSaved : Bool)
  /-- Source: `logger.error('Failed to execute scheduled task', ...)` in the
  outer catch. -/
  | failedLog
deriving Repr, DecidableEq

/-- Failures arising inside one firing (MCPError from `connect`, APIError
from the executor, SchedulerError from `saveOutput`). -/
inductive ExecFailure where
  | connectFailed
  | execFailed
  | saveFailed
deriving Repr, DecidableEq

/-- Source: `Scheduler.saveOutput(scheduleName, outputPath, content)`: expand the
template, resolve the path, `mkdir -p` the parent, write the file.  Any
failure is logged (`saveErrorLog`) and rethrown as a `SchedulerError`. -/
def saveOutput (env : ExecEnv) (scheduleName outputPath content : String) :
    List ExecEv × Option ExecFailure :=
  let fullPath := fullOutputPath env.cwd env.iso scheduleName outputPath
  if !env.mkdirOk then
    ([.mkdirCall, .saveErrorLog], some .saveFailed)
  else if !env.writeOk then
    ([.mkdirCall, .writeCall fullPath content, .saveErrorLog], some .saveFailed)
  else
    ([.mkdirCall, .writeCall fullPath content], none)

/-- The `try` block of `executeSchedule`: readiness check (reconnect when
not ready), prompt execution, conditional persistence, then the
completion log whose `outputSaved` field is `Boolean(schedule.outputPath)`.
Returns the events emitted before a throw together with the throw. -/
def executeBody (env : ExecEnv) (s : Schedule) :
    List ExecEv × Option ExecFailure :=
  let pre : List ExecEv := if env.isReady then [] else [.connectCall]
  if !env.isReady && !env.connectOk then
    (pre, some .connectFailed)
  else
    match env.execResult with
    | none => (pre ++ [.execCall s.prompt], some .execFailed)
    | some result =>
      match s.outputPath with
      | none => (pre ++ [.execCall s.prompt, .completedLog false], none)
      | some p =>
        match saveOutput env s.name p result with
        | (evs, none) =>
          (pre ++ .execCall s.prompt :: evs ++
            [.completedLog true], none)
        | (evs, some e) =>
          (pre ++ .execCall s.prompt :: evs, some e)

/-- Source: `Scheduler.executeSchedule(schedule)`: the `try` body wrapped in the
outer `catch`, which logs the failure and deliberately does not rethrow
("Don't throw - let the scheduler continue running").  The second
component is the error escaping the routine. -/
def executeSchedule (env : ExecEnv) (s : Schedule) :
    List ExecEv × Option ExecFailure :=
  match executeBody env s with
  | (evs, none) => (evs, none)
  | (evs, some _) => (evs ++ [.failedLog], none)

/-- The trigger callback for a registered task firing on schedule `s`:
`() => { void this.executeSchedule(schedule) }`.  `executeSchedule` reads
only `claudeHandler` and `mcpClient`; it never touches `this.tasks`, so
the registry component of the state is returned unchanged. -/
def fireTask (st : SchedState) (env : ExecEnv) (s : Schedule) :
    SchedState × (List ExecEv × Option ExecFailure) :=
  (st, executeSchedule env s)

/-! ## Interleaved firings of one job (claim C1)

`scheduleTask` installs the callback `() => { void executeSchedule(s) }`.
The callback consults nothing before starting the routine: the `Scheduler`
fields are `tasks`, `claudeHandler` and `mcpClient`, and none of them
records an in-flight execution.  A firing therefore always begins a new
asynchronous run of `executeSchedule`, even while a previous run for the
same schedule is suspended at an `await`.  The interleaving model below
has two atomic phases per run: from entry to the first suspension inside
`await executePrompt`, and from the executor's resolution to completion. -/

/-- Progress of one in-flight run of `executeSchedule`. -/
inductive RunPhase where
  /-- The callback has started the routine (run is in flight). -/
  | started
  /-- The run is suspended at `await claudeHandler.executePrompt`. -/
  | awaitingExecutor
deriving Repr, DecidableEq

/-- The in-flight runs, in spawn order, each with its job name. -/
abbrev InflightState := List (String × RunPhase)

/-- Events of the interleaved system: a trigger firing for a job name
(which unconditionally spawns a run), or the event loop advancing the
`i`-th in-flight run past its next suspension point (a run advancing out
of `awaitingExecutor` completes and leaves the in-flight list). -/
inductive SysAct where
  | fire (name : String)
  | advance (i : Nat)
deriving Repr, DecidableEq

/-- One step of the interleaved system. -/
def sysStep (l : InflightState) : SysAct → InflightState
  | .fire n => l ++ [(n, .started)]
  | .advance i =>
    match l.get? i with
    | some (n, .started) => l.set i (n, .awaitingExecutor)
    | some (_, .awaitingExecutor) => l.eraseIdx i
    | none => l

/-- Run a sequence of system events from an initial in-flight state. -/
def sysRun (l : InflightState) (acts : List SysAct) : InflightState :=
  acts.foldl sysStep l

/-- The number of concurrently in-flight executions for job `n`. -/
def inflightCount (n : String) (l : InflightState) : Nat :=
  (l.filter (fun p => p.1 == n)).length

/-! ## The tool connection (`MCPClient`, src/mcp-client.ts)

Only the fields and the `connect` / `disconnect` / `isReady` behaviour
matter to the claims.  The SDK `Client`, `StdioClientTransport` and the
spawned server process are opaque; the state records their presence, and
connection work is observable through `MCPEv` events. -/

/-- A discovered tool (name and description; the JSON `inputSchema` is
opaque and irrelevant to the claims). -/
structure MCPTool where
  name : String
  description : String
deriving Repr, DecidableEq

/-- The mutable fields of class `MCPClient`: `client`, `transport`,
`serverProcess` (presence of the objects), the `tools` map, and the
`isConnected` flag. -/
structure MCPState where
  hasClient : Bool
  hasTransport : Bool
  hasProcess : Bool
  tools : List MCPTool
  isConnected : Bool
deriving Repr, DecidableEq

namespace MCPState

/-- Field initializers of a freshly constructed `MCPClient`. -/
def init : MCPState := ⟨false, false, false, [], false⟩

end MCPState

/-- Outcomes of the external calls `connect` makes. -/
structure MCPEnv where
  /-- Whether `await this.client.connect(this.transport)` succeeds. -/
  clientConnectOk : Bool
  /-- Source: `await this.client.listTools()`: the discovered tools, or `none`
  when the call throws. -/
  listTools : Option (List MCPTool)
deriving Repr, DecidableEq

/-- Observable connection work. -/
inductive MCPEv where
  /-- Source: `spawn(command, args, ...)`: a new server process. -/
  | spawnProcess
  /-- Source: `new StdioClientTransport(...)`. -/
  | newTransport
  /-- Source: `new Client(...)`. -/
  | newClient
  /-- Source: `logger.debug('MCP client already connected')` early return. -/
  | alreadyConnectedLog
  /-- Source: `this.serverProcess.kill()` during `disconnect`. -/
  | killProcess
deriving Repr, DecidableEq

/-- Source: `MCPClient.disconnect()` (lines 87-112): close client and transport,
kill the server process when present, clear the tools, reset every field. -/
def mcpDisconnect (st : MCPState) : MCPState × List MCPEv :=
  (MCPState.init, if st.hasProcess then [.killProcess] else [])

/-- The error `connect` rethrows from its catch block
(`MCPError('Failed to connect to MCP server')`). -/
inductive MCPErr where
  | connectFailed
deriving Repr, DecidableEq

/-- Source: `this.tools.set(tool.name, ...)`: update in place when the name
exists, append otherwise. -/
def setTool (l : List MCPTool) (t : MCPTool) : List MCPTool :=
  match l with
  | [] => [t]
  | u :: rest => if u.name = t.name then t :: rest else u :: setTool rest t

/-- Source: `MCPClient.connect()` (lines 20-86).  When `isConnected` is already
set, log and return with no connection work.  Otherwise spawn the server
process, create transport and client, connect the client (failure is
caught: `disconnect` then rethrow as `MCPError`), set `isConnected`, then
discover tools and record each via `tools.set` (a `discoverTools` failure
is likewise caught by the outer catch: `disconnect` then rethrow).  The
result is the new object state, the escaped error if any, and the
connection-work events. -/
def mcpConnect (env : MCPEnv) (st : MCPState) :
    MCPState × Option MCPErr × List MCPEv :=
  if st.isConnected then
    (st, none, [.alreadyConnectedLog])
  else
    let evs : List MCPEv := [.spawnProcess, .newTransport, .newClient]
    let st1 : MCPState :=
      { st with hasProcess := true, hasTransport := true, hasClient := true }
    if !env.clientConnectOk then
      let (st2, evs2) := mcpDisconnect st1
      (st2, some .connectFailed, evs ++ evs2)
    else
      let st2 : MCPState := { st1 with isConnected := true }
      match env.listTools with
      | none =>
        let (st3, evs3) := mcpDisconnect st2
        (st3, some .connectFailed, evs ++ evs3)
      | some ts =>
        ({ st2 with tools := ts.foldl setTool st2.tools }, none, evs)

/-- Source: `MCPClient.isReady()` (lines 195-197):
`this.isConnected && this.client !== null`. -/
def mcpIsReady (st : MCPState) : Bool :=
  st.isConnected && st.hasClient

/-- Every registry entry is keyed by the name of the schedule it holds.
This holds for every state reachable from `SchedState.init` (entries are
only ever inserted by `scheduleTask` under key `s.name`). -/
def goodKeys (st : SchedState) : Prop :=
  ∀ p ∈ st.tasks, p.2.schedule.name = p.1

/-- Registry keys are pairwise distinct — the `Map` invariant; it holds
for every state reachable from `SchedState.init` since `scheduleTask`
inserts only names that are not yet registered. -/
abbrev keysNodup (l : List (String × TaskEntry)) : Prop :=
  l.Pairwise (fun p q => p.1 ≠ q.1)

/-! ## Helper lemmas about the registry and `start` -/

lemma lookupKey_cons (k : String) (e : TaskEntry)
    (rest : List (String × TaskEntry)) (n : String) :
    lookupKey ((k, e) :: rest) n = if k = n then some e else lookupKey rest n :=
  rfl

lemma lookupKey_append_single (l : List (String × TaskEntry)) (k : String)
    (e : TaskEntry) (n : String) :
    lookupKey (l ++ [(k, e)]) n =
      match lookupKey l n with
      | some v => some v
      | none => if k = n then some e else none := by
  induction l with
  | nil => simp [lookupKey]
  | cons p rest ih =>
    obtain ⟨k', e'⟩ := p
    by_cases h : k' = n <;> simp [lookupKey_cons, h, ih]

lemma hasKey_append_single (l : List (String × TaskEntry)) (k : String)
    (e : TaskEntry) (n : String) :
    hasKey (l ++ [(k, e)]) n = (hasKey l n || decide (k = n)) := by
  unfold hasKey
  rw [lookupKey_append_single]
  cases h : lookupKey l n <;> by_cases hk : k = n <;> simp [hk]

lemma lookupKey_eq_none_iff (l : List (String × TaskEntry)) (n : String) :
    lookupKey l n = none ↔ ∀ p ∈ l, p.1 ≠ n := by
  induction l with
  | nil => simp [lookupKey]
  | cons p rest ih =>
    obtain ⟨k, e⟩ := p
    by_cases h : k = n <;> simp [lookupKey_cons, h, ih]

lemma hasKey_false_iff (l : List (String × TaskEntry)) (n : String) :
    hasKey l n = false ↔ ∀ p ∈ l, p.1 ≠ n := by
  unfold hasKey
  constructor
  · intro h
    refine (lookupKey_eq_none_iff l n).mp ?_
    cases hl : lookupKey l n with
    | none => rfl
    | some v => rw [hl] at h; simp at h
  · intro hall
    rw [(lookupKey_eq_none_iff l n).mpr hall]
    rfl

/-- Source: `scheduleTask` only adds: keys present before stay present. -/
lemma scheduleTask_hasKey_mono {v : String → Bool} {st st' : SchedState}
    {s : Schedule} (h : scheduleTask v st s = .ok st') (n : String)
    (hn : hasKey st.tasks n = true) : hasKey st'.tasks n = true := by
  unfold scheduleTask at h
  by_cases h1 : hasKey st.tasks s.name <;> simp [h1] at h
  by_cases h2 : v s.cron <;> simp [h2] at h
  subst h
  simp [hasKey_append_single, hn]

/-- After a successful `scheduleTask`, the new name is registered. -/
lemma scheduleTask_hasKey_self {v : String → Bool} {st st' : SchedState}
    {s : Schedule} (h : scheduleTask v st s = .ok st') :
    hasKey st'.tasks s.name = true := by
  unfold scheduleTask at h
  by_cases h1 : hasKey st.tasks s.name <;> simp [h1] at h
  by_cases h2 : v s.cron <;> simp [h2] at h
  subst h
  simp [hasKey_append_single]

/-- A successful `scheduleTask` appends one entry keyed by the name. -/
lemma scheduleTask_ok_spec {v : String → Bool} {st st' : SchedState}
    {s : Schedule} (h : scheduleTask v st s = .ok st') :
    st'.tasks = st.tasks ++ [(s.name, ⟨s, st.nextHandle⟩)] ∧
      st'.created = st.created ++ [s.name] := by
  unfold scheduleTask at h
  by_cases h1 : hasKey st.tasks s.name <;> simp [h1] at h
  by_cases h2 : v s.cron <;> simp [h2] at h
  subst h
  exact ⟨rfl, rfl⟩

lemma startAux_append_ok {v : String → Bool} {st st1 : SchedState}
    {a : List Schedule} (b : List Schedule)
    (h : startAux v st a = (st1, none)) :
    startAux v st (a ++ b) = startAux v st1 b := by
  induction a generalizing st with
  | nil =>
    have h1 : st = st1 := congrArg Prod.fst h
    rw [List.nil_append, h1]
  | cons s rest ih =>
    simp only [startAux, List.cons_append] at h ⊢
    by_cases he : s.enabled <;> simp only [he, if_true, if_false] at h ⊢
    · cases hs : scheduleTask v st s with
      | ok st2 => rw [hs] at h; exact ih h
      | error e =>
        rw [hs] at h
        have h2 : (some e : Option ConfigError) = none := congrArg Prod.snd h
        simp at h2
    · exact ih h

lemma startAux_append_err {v : String → Bool} {st st1 : SchedState}
    {a : List Schedule} {e : ConfigError} (b : List Schedule)
    (h : startAux v st a = (st1, some e)) :
    startAux v st (a ++ b) = (st1, some e) := by
  induction a generalizing st with
  | nil =>
    have h2 : (none : Option ConfigError) = some e := congrArg Prod.snd h
    simp at h2
  | cons s rest ih =>
    simp only [startAux, List.cons_append] at h ⊢
    by_cases he : s.enabled <;> simp only [he, if_true, if_false] at h ⊢
    · cases hs : scheduleTask v st s with
      | ok st2 => rw [hs] at h; exact ih h
      | error e' => rw [hs] at h; exact h
    · exact ih h

/-- A successful `start` run only adds registry keys. -/
lemma startAux_hasKey_mono {v : String → Bool} {st st' : SchedState}
    {ss : List Schedule} (h : startAux v st ss = (st', none)) (n : String)
    (hn : hasKey st.tasks n = true) : hasKey st'.tasks n = true := by
  induction ss generalizing st with
  | nil =>
    have h1 : st = st' := congrArg Prod.fst h
    rw [← h1]; exact hn
  | cons s rest ih =>
    simp only [startAux] at h
    by_cases he : s.enabled <;> simp only [he, if_true, if_false] at h
    · cases hs : scheduleTask v st s with
      | ok st2 => rw [hs] at h; exact ih h (scheduleTask_hasKey_mono hs n hn)
      | error e =>
        rw [hs] at h
        have h2 : (some e : Option ConfigError) = none := congrArg Prod.snd h
        simp at h2
    · exact ih h hn

/-- A failed `start` run decomposes: the loop successfully processed a
prefix, then the first offending enabled definition threw, contributing
nothing; the rest of the batch was never processed. -/
lemma startAux_err_decomp {v : String → Bool} {st st' : SchedState}
    {ss : List Schedule} {e : ConfigError}
    (h : startAux v st ss = (st', some e)) :
    ∃ l1 s l2, ss = l1 ++ s :: l2 ∧ s.enabled = true ∧
      startAux v st l1 = (st', none) ∧ scheduleTask v st' s = .error e := by
  induction ss generalizing st with
  | nil =>
    have h2 : (none : Option ConfigError) = some e := congrArg Prod.snd h
    simp at h2
  | cons s rest ih =>
    by_cases he : s.enabled
    · simp only [startAux, he, if_true] at h
      cases hs : scheduleTask v st s with
      | ok st2 =>
        rw [hs] at h
        obtain ⟨l1, s1, l2, hss, hen, hrun, herr⟩ := ih h
        refine ⟨s :: l1, s1, l2, by rw [hss, List.cons_append], hen, ?_, herr⟩
        simp only [startAux, he, if_true, hs]
        exact hrun
      | error e' =>
        rw [hs] at h
        have h1 : st = st' := congrArg Prod.fst h
        have h2 : (some e' : Option ConfigError) = some e := congrArg Prod.snd h
        have he2 : e' = e := by injection h2
        refine ⟨[], s, rest, rfl, he, ?_, ?_⟩
        · show (st, (none : Option ConfigError)) = (st', none)
          rw [h1]
        · rw [← h1, hs, he2]
    · have he' : s.enabled = false := by simpa using he
      simp only [startAux, he', Bool.false_eq_true, if_false] at h
      obtain ⟨l1, s1, l2, hss, hen, hrun, herr⟩ := ih h
      refine ⟨s :: l1, s1, l2, by rw [hss, List.cons_append], hen, ?_, herr⟩
      simp only [startAux, he', Bool.false_eq_true, if_false]
      exact hrun

/-- Any registry key after a `start` run was either present before or is
the name of an enabled definition of the batch. -/
lemma startAux_hasKey_bound {v : String → Bool} {st : SchedState}
    {ss : List Schedule} {n : String}
    (h : hasKey (startAux v st ss).1.tasks n = true) :
    hasKey st.tasks n = true ∨ ∃ s ∈ ss, s.enabled = true ∧ s.name = n := by
  induction ss generalizing st with
  | nil => exact Or.inl h
  | cons s rest ih =>
    by_cases he : s.enabled
    · simp only [startAux, he, if_true] at h
      cases hs : scheduleTask v st s with
      | ok st2 =>
        rw [hs] at h
        rcases ih h with h1 | ⟨t, ht, h1, h2⟩
        · rw [(scheduleTask_ok_spec hs).1, hasKey_append_single] at h1
          rcases Bool.or_eq_true_iff.mp h1 with h2 | h2
          · exact Or.inl h2
          · exact Or.inr ⟨s, List.mem_cons_self s rest, he,
              of_decide_eq_true h2⟩
        · exact Or.inr ⟨t, List.mem_cons_of_mem s ht, h1, h2⟩
      | error e =>
        rw [hs] at h
        exact Or.inl h
    · have he' : s.enabled = false := by simpa using he
      simp only [startAux, he', Bool.false_eq_true, if_false] at h
      rcases ih h with h1 | ⟨t, ht, h1, h2⟩
      · exact Or.inl h1
      · exact Or.inr ⟨t, List.mem_cons_of_mem s ht, h1, h2⟩

/-- Any name in the trigger-creation log after a `start` run was either
there before or is the name of an enabled definition of the batch. -/
lemma startAux_created_bound {v : String → Bool} {st : SchedState}
    {ss : List Schedule} {m : String}
    (h : m ∈ (startAux v st ss).1.created) :
    m ∈ st.created ∨ ∃ s ∈ ss, s.enabled = true ∧ s.name = m := by
  induction ss generalizing st with
  | nil => exact Or.inl h
  | cons s rest ih =>
    by_cases he : s.enabled
    · simp only [startAux, he, if_true] at h
      cases hs : scheduleTask v st s with
      | ok st2 =>
        rw [hs] at h
        rcases ih h with h1 | ⟨t, ht, h1, h2⟩
        · rw [(scheduleTask_ok_spec hs).2] at h1
          rcases List.mem_append.mp h1 with h2 | h2
          · exact Or.inl h2
          · exact Or.inr ⟨s, List.mem_cons_self s rest, he,
              (List.mem_singleton.mp h2).symm⟩
        · exact Or.inr ⟨t, List.mem_cons_of_mem s ht, h1, h2⟩
      | error e =>
        rw [hs] at h
        exact Or.inl h
    · have he' : s.enabled = false := by simpa using he
      simp only [startAux, he', Bool.false_eq_true, if_false] at h
      rcases ih h with h1 | ⟨t, ht, h1, h2⟩
      · exact Or.inl h1
      · exact Or.inr ⟨t, List.mem_cons_of_mem s ht, h1, h2⟩

/-- Source: `start` preserves the key/name coherence of the registry. -/
lemma startAux_goodKeys {v : String → Bool} {st : SchedState}
    {ss : List Schedule} (hg : goodKeys st) :
    goodKeys (startAux v st ss).1 := by
  induction ss generalizing st with
  | nil => exact hg
  | cons s rest ih =>
    by_cases he : s.enabled
    · simp only [startAux, he, if_true]
      cases hs : scheduleTask v st s with
      | ok st2 =>
        refine ih ?_
        intro p hp
        rw [(scheduleTask_ok_spec hs).1] at hp
        rcases List.mem_append.mp hp with h1 | h1
        · exact hg p h1
        · rw [List.mem_singleton.mp h1]
      | error e => exact hg
    · have he' : s.enabled = false := by simpa using he
      simp only [startAux, he', Bool.false_eq_true, if_false]
      exact ih hg

/-- In a key-coherent registry, a name that is not registered does not
appear among the `getActiveTasks` views. -/
lemma goodKeys_views {st : SchedState} {n : String} (hg : goodKeys st)
    (hn : hasKey st.tasks n = false) :
    ∀ view ∈ getActiveTasks st, view.name ≠ n := by
  intro view hv
  obtain ⟨p, hp, hpv⟩ := List.mem_map.mp hv
  have h1 : view.name = p.2.schedule.name := by rw [← hpv]
  rw [h1, hg p hp]
  exact (hasKey_false_iff st.tasks n).mp hn p hp

/-- A batch containing an enabled definition with an invalid cadence
always makes `start` throw. -/
lemma startAux_fails_of_invalidCron {v : String → Bool} {ss : List Schedule}
    {s : Schedule} (hmem : s ∈ ss) (he : s.enabled = true)
    (hc : v s.cron = false) (st : SchedState) :
    ((startAux v st ss).2).isSome = true := by
  induction ss generalizing st with
  | nil => cases hmem
  | cons t rest ih =>
    rcases List.mem_cons.mp hmem with rfl | hmem2
    · simp only [startAux, he, if_true]
      cases hs : scheduleTask v st s with
      | ok st2 =>
        exfalso
        unfold scheduleTask at hs
        by_cases h1 : hasKey st.tasks s.name <;> simp [h1] at hs
        rw [hc] at hs
        simp at hs
      | error e => rfl
    · by_cases ht : t.enabled
      · simp only [startAux, ht, if_true]
        cases hs : scheduleTask v st t with
        | ok st2 => exact ih hmem2 st2
        | error e => rfl
      · have ht' : t.enabled = false := by simpa using ht
        simp only [startAux, ht', Bool.false_eq_true, if_false]
        exact ih hmem2 st

/-- A batch containing an enabled definition whose name is already
registered always makes `start` throw. -/
lemma startAux_fails_of_collision {v : String → Bool} {ss : List Schedule}
    {s : Schedule} (hmem : s ∈ ss) (he : s.enabled = true) :
    ∀ st : SchedState, hasKey st.tasks s.name = true →
    ((startAux v st ss).2).isSome = true := by
  induction ss with
  | nil => cases hmem
  | cons t rest ih =>
    intro st hk
    rcases List.mem_cons.mp hmem with rfl | hmem2
    · simp only [startAux, he, if_true]
      cases hs : scheduleTask v st s with
      | ok st2 =>
        exfalso
        unfold scheduleTask at hs
        rw [hk] at hs
        simp at hs
      | error e => rfl
    · by_cases ht : t.enabled
      · simp only [startAux, ht, if_true]
        cases hs : scheduleTask v st t with
        | ok st2 => exact ih hmem2 st2 (scheduleTask_hasKey_mono hs s.name hk)
        | error e => rfl
      · have ht' : t.enabled = false := by simpa using ht
        simp only [startAux, ht', Bool.false_eq_true, if_false]
        exact ih hmem2 st hk

/-- A batch containing two enabled definitions with the same name always
makes `start` throw. -/
lemma startAux_fails_of_dup {v : String → Bool} {s1 s2 : Schedule}
    (l1 l2 l3 : List Schedule) (h1 : s1.enabled = true)
    (h2 : s2.enabled = true) (hname : s1.name = s2.name) (st : SchedState) :
    ((startAux v st (l1 ++ (s1 :: (l2 ++ (s2 :: l3))))).2).isSome = true := by
  cases hp : startAux v st l1 with
  | mk st1 e1 =>
    cases e1 with
    | some e =>
      rw [startAux_append_err _ hp]
      rfl
    | none =>
      rw [startAux_append_ok _ hp]
      simp only [startAux, h1, if_true]
      cases hs : scheduleTask v st1 s1 with
      | ok st2 =>
        have hk : hasKey st2.tasks s2.name = true := by
          rw [← hname]; exact scheduleTask_hasKey_self hs
        exact startAux_fails_of_collision
          (List.mem_append_right l2 (List.mem_cons_self s2 l3)) h2 st2 hk
      | error e => rfl

/-- C2, counterexample to the original claim: in the batch
`[jobA (valid cron), jobB (invalid cron)]`, `start` throws the
configuration error for jobB, yet jobA — another definition of the same
batch — remains registered and its trigger was created, so the failed
call does leave a partially-registered task. -/
theorem claim_C2_counterexample :
    (start (fun c => c == "0 * * * *") SchedState.init
      [⟨"jobA", "0 * * * *", true, "report", none⟩,
       ⟨"jobB", "nonsense", true, "audit", none⟩]).2 =
      some (ConfigError.invalidCron "jobB" "nonsense") ∧
    isTaskActive (start (fun c => c == "0 * * * *") SchedState.init
      [⟨"jobA", "0 * * * *", true, "report", none⟩,
       ⟨"jobB", "nonsense", true, "audit", none⟩]).1 "jobA" = true ∧
    "jobA" ∈ (start (fun c => c == "0 * * * *") SchedState.init
      [⟨"jobA", "0 * * * *", true, "report", none⟩,
       ⟨"jobB", "nonsense", true, "audit", none⟩]).1.created := by
  decide

/-- C2, amended: a batch with an enabled definition whose cadence is
invalid, or whose name is already registered, or that duplicates the name
of another enabled definition of the batch, makes `start` fail with a
configuration error.  The failure is atomic per definition, not per
batch: the state after a failed `start` is exactly the state after the
successfully processed prefix — the offending definition is not
registered and gains no trigger and later definitions are untouched —
but earlier enabled definitions of the batch remain registered
(no rollback). -/
theorem claim_C2_start_config_failure (v : String → Bool) (st : SchedState)
    (ss : List Schedule) :
    (∀ st' e, start v st ss = (st', some e) →
      ∃ l1 s l2, ss = l1 ++ s :: l2 ∧ s.enabled = true ∧
        start v st l1 = (st', none) ∧ scheduleTask v st' s = .error e) ∧
    (∀ s ∈ ss, s.enabled = true → v s.cron = false →
      ((start v st ss).2).isSome = true) ∧
    (∀ s ∈ ss, s.enabled = true → hasKey st.tasks s.name = true →
      ((start v st ss).2).isSome = true) ∧
    (∀ (l1 : List Schedule) (s1 : Schedule) (l2 : List Schedule)
        (s2 : Schedule) (l3 : List Schedule),
      ss = l1 ++ (s1 :: (l2 ++ (s2 :: l3))) →
      s1.enabled = true → s2.enabled = true → s1.name = s2.name →
      ((start v st ss).2).isSome = true) := by
  refine ⟨?_, ?_, ?_, ?_⟩
  · intro st' e h
    exact startAux_err_decomp h
  · intro s hmem he hc
    exact startAux_fails_of_invalidCron hmem he hc st
  · intro s hmem he hk
    exact startAux_fails_of_collision hmem he st hk
  · intro l1 s1 l2 s2 l3 hss h1 h2 hname
    rw [hss]
    exact startAux_fails_of_dup l1 l2 l3 h1 h2 hname st

/-- C2, witness: the amended theorem applied to the two-job batch of the
counterexample — the enabled `jobB` with its invalid cadence guarantees
that this `start` call fails. -/
theorem claim_C2_witness :
    ((start (fun c => c == "0 * * * *") SchedState.init
      [⟨"jobA", "0 * * * *", true, "report", none⟩,
       ⟨"jobB", "nonsense", true, "audit", none⟩]).2).isSome = true :=
  (claim_C2_start_config_failure (fun c => c == "0 * * * *")
      SchedState.init
      [⟨"jobA", "0 * * * *", true, "report", none⟩,
       ⟨"jobB", "nonsense", true, "audit", none⟩]).2.1
    ⟨"jobB", "nonsense", true, "audit", none⟩ (by decide) (by decide)
    (by decide)

/-- C8: a definition with `enabled = false` never produces an active
task.  Provided no enabled definition of the batch shares its name and
the name is not already registered, then after `start` (whether it
succeeded or threw) the name is not registered, no trigger was ever
created for it, and it does not appear among the `getActiveTasks` views. -/
theorem claim_C8_disabled_inert (v : String → Bool) (st : SchedState)
    (ss : List Schedule) (s : Schedule)
    (hmem : s ∈ ss) (hdis : s.enabled = false)
    (hun : ∀ t ∈ ss, t.enabled = true → t.name ≠ s.name)
    (hk : hasKey st.tasks s.name = false)
    (hc : s.name ∉ st.created) (hg : goodKeys st) :
    isTaskActive (start v st ss).1 s.name = false ∧
    s.name ∉ (start v st ss).1.created ∧
    (∀ view ∈ getActiveTasks (start v st ss).1, view.name ≠ s.name) := by
  have h1 : hasKey (startAux v st ss).1.tasks s.name = false := by
    cases hb : hasKey (startAux v st ss).1.tasks s.name with
    | false => rfl
    | true =>
      exfalso
      rcases startAux_hasKey_bound hb with h2 | ⟨t, ht, h2, h3⟩
      · rw [hk] at h2; exact Bool.false_ne_true h2
      · exact hun t ht h2 h3
  refine ⟨h1, ?_, ?_⟩
  · intro hmem2
    rcases startAux_created_bound hmem2 with h2 | ⟨t, ht, h2, h3⟩
    · exact hc h2
    · exact hun t ht h2 h3
  · exact goodKeys_views (startAux_goodKeys hg) h1

/-- C8, witness: a one-element batch holding a disabled definition,
started on a fresh scheduler, activates nothing. -/
theorem claim_C8_witness :
    isTaskActive (start (fun _ => true) SchedState.init
      [⟨"off", "0 * * * *", false, "p", none⟩]).1 "off" = false ∧
    "off" ∉ (start (fun _ => true) SchedState.init
      [⟨"off", "0 * * * *", false, "p", none⟩]).1.created := by
  have h := claim_C8_disabled_inert (fun _ => true) SchedState.init
    [⟨"off", "0 * * * *", false, "p", none⟩]
    ⟨"off", "0 * * * *", false, "p", none⟩
    (by decide) (by decide) (by decide) (by decide) (by decide)
    (by intro p hp; cases hp)
  exact ⟨h.1, h.2.1⟩

/-! ## Helper lemmas about the output resolver -/

lemma isPrefixOf_exists_append {pat s : List Char}
    (h : pat.isPrefixOf s = true) : ∃ t, pat ++ t = s := by
  induction pat generalizing s with
  | nil => exact ⟨s, rfl⟩
  | cons c cs ih =>
    cases s with
    | nil => simp [List.isPrefixOf] at h
    | cons d ds =>
      simp only [List.isPrefixOf, Bool.and_eq_true, beq_iff_eq] at h
      obtain ⟨t, ht⟩ := ih h.2
      exact ⟨t, by rw [List.cons_append, ht, h.1]⟩

lemma isPrefixOf_of_append {pat t s : List Char}
    (h : pat ++ t = s) : pat.isPrefixOf s = true := by
  induction pat generalizing s with
  | nil => cases h; simp [List.isPrefixOf]
  | cons c cs ih =>
    cases s with
    | nil => cases h
    | cons d ds =>
      rw [List.cons_append] at h
      have h1 : c = d := (List.cons.injEq _ _ _ _ ▸ h).1
      have h2 : cs ++ t = ds := (List.cons.injEq _ _ _ _ ▸ h).2
      simp only [List.isPrefixOf, Bool.and_eq_true, beq_iff_eq]
      exact ⟨h1, ih h2⟩

lemma findSplit_eq {pat s pre suf : List Char}
    (h : findSplit pat s = some (pre, suf)) : s = pre ++ pat ++ suf := by
  induction s generalizing pre suf with
  | nil =>
    unfold findSplit at h
    by_cases hp : pat = [] <;> simp [hp] at h
    rw [hp, h.1, h.2]
    rfl
  | cons c rest ih =>
    unfold findSplit at h
    by_cases hpre : pat.isPrefixOf (c :: rest)
    · rw [if_pos hpre] at h
      obtain ⟨t, ht⟩ := isPrefixOf_exists_append hpre
      have h1 : pre = [] := (Prod.mk.injEq _ _ _ _ ▸ Option.some.inj h).1.symm
      have h2 : suf = (c :: rest).drop pat.length :=
        ((Prod.mk.injEq _ _ _ _ ▸ Option.some.inj h).2).symm
      rw [h1, h2, ← ht, List.drop_left]
      rfl
    · rw [if_neg hpre] at h
      cases hf : findSplit pat rest with
      | some pr =>
        obtain ⟨pre', suf'⟩ := pr
        rw [hf] at h
        have h1 : pre = c :: pre' :=
          (Prod.mk.injEq _ _ _ _ ▸ Option.some.inj h).1.symm
        have h2 : suf = suf' :=
          ((Prod.mk.injEq _ _ _ _ ▸ Option.some.inj h).2).symm
        rw [h1, h2, ih hf]
        rfl
      | none => rw [hf] at h; cases h

lemma findSplit_leftmost {pat s pre suf : List Char}
    (h : findSplit pat s = some (pre, suf)) :
    ∀ a b : List Char, s = a ++ pat ++ b → pre.length ≤ a.length := by
  induction s generalizing pre suf with
  | nil =>
    intro a b _
    unfold findSplit at h
    by_cases hp : pat = [] <;> simp [hp] at h
    rw [h.1]
    exact Nat.zero_le _
  | cons c rest ih =>
    intro a b hab
    unfold findSplit at h
    by_cases hpre : pat.isPrefixOf (c :: rest)
    · rw [if_pos hpre] at h
      have h1 : pre = [] := (Prod.mk.injEq _ _ _ _ ▸ Option.some.inj h).1.symm
      rw [h1]
      exact Nat.zero_le _
    · rw [if_neg hpre] at h
      cases hf : findSplit pat rest with
      | some pr =>
        obtain ⟨pre', suf'⟩ := pr
        rw [hf] at h
        have h1 : pre = c :: pre' :=
          (Prod.mk.injEq _ _ _ _ ▸ Option.some.inj h).1.symm
        cases a with
        | nil =>
          exfalso
          apply hpre
          refine isPrefixOf_of_append (t := b) ?_
          simpa using hab.symm
        | cons a0 a' =>
          have hc : c = a0 ∧ rest = a' ++ pat ++ b := by
            have := hab
            simp only [List.cons_append, List.append_assoc] at this ⊢
            exact ⟨(List.cons.injEq _ _ _ _ ▸ this).1,
              by simpa [List.append_assoc] using
                (List.cons.injEq _ _ _ _ ▸ this).2⟩
          rw [h1]
          simpa using Nat.succ_le_succ (ih hf a' b hc.2)
      | none => rw [hf] at h; cases h

/-- Characters of a `replaceFirst` result come from the subject or the
replacement. -/
lemma mem_data_replaceFirst {s pat repl : String} {c : Char}
    (h : c ∈ (replaceFirst s pat repl).data) :
    c ∈ s.data ∨ c ∈ repl.data := by
  unfold replaceFirst at h
  cases hf : findSplit pat.data s.data with
  | none => rw [hf] at h; exact Or.inl h
  | some pr =>
    obtain ⟨pre, suf⟩ := pr
    rw [hf] at h
    have hs : s.data = pre ++ pat.data ++ suf := findSplit_eq hf
    have h2 : c ∈ pre ++ repl.data ++ suf := h
    rcases List.mem_append.mp h2 with h3 | h3
    · rcases List.mem_append.mp h3 with h4 | h4
      · refine Or.inl ?_
        rw [hs]
        exact List.mem_append_left _ (List.mem_append_left _ h4)
      · exact Or.inr h4
    · refine Or.inl ?_
      rw [hs]
      exact List.mem_append_right _ h3

/-- The sanitized timestamp contains no ':' and no '.'. -/
lemma sanitizeTimestamp_safe_chars {iso : String} {c : Char}
    (h : c ∈ (sanitizeTimestamp iso).data) : c ≠ ':' ∧ c ≠ '.' := by
  unfold sanitizeTimestamp at h
  obtain ⟨a, _, ha⟩ := List.mem_map.mp h
  by_cases hc : a = ':' ∨ a = '.'
  · rw [if_pos hc] at ha
    rw [← ha]
    exact ⟨by decide, by decide⟩
  · rw [if_neg hc] at ha
    rw [← ha]
    push_neg at hc
    exact hc

/-- Every character of the resolved output path comes from the template,
the job name, the sanitized timestamp, the date part, the working
directory, or the path separator. -/
lemma mem_data_fullOutputPath {cwd iso scheduleName template : String}
    {c : Char} (h : c ∈ (fullOutputPath cwd iso scheduleName template).data) :
    c ∈ template.data ∨ c ∈ scheduleName.data ∨
    c ∈ (sanitizeTimestamp iso).data ∨ c ∈ (datePart iso).data ∨
    c ∈ cwd.data ∨ c = '/' := by
  unfold fullOutputPath pathResolve at h
  have hres : c ∈ (resolveTemplate iso scheduleName template).data →
      c ∈ template.data ∨ c ∈ scheduleName.data ∨
      c ∈ (sanitizeTimestamp iso).data ∨ c ∈ (datePart iso).data := by
    intro h1
    unfold resolveTemplate at h1
    rcases mem_data_replaceFirst h1 with h2 | h2
    · rcases mem_data_replaceFirst h2 with h3 | h3
      · rcases mem_data_replaceFirst h3 with h4 | h4
        · exact Or.inl h4
        · exact Or.inr (Or.inl h4)
      · exact Or.inr (Or.inr (Or.inl h3))
    · exact Or.inr (Or.inr (Or.inr h2))
  by_cases habs : isAbsolutePath (resolveTemplate iso scheduleName template)
  · rw [if_pos habs] at h
    rcases hres h with h1 | h1 | h1 | h1
    · exact Or.inl h1
    · exact Or.inr (Or.inl h1)
    · exact Or.inr (Or.inr (Or.inl h1))
    · exact Or.inr (Or.inr (Or.inr (Or.inl h1)))
  · rw [if_neg habs] at h
    have h2 : c ∈ cwd.data ++ '/' ::
        (resolveTemplate iso scheduleName template).data := h
    rcases List.mem_append.mp h2 with h3 | h3
    · exact Or.inr (Or.inr (Or.inr (Or.inr (Or.inl h3))))
    · rcases List.mem_cons.mp h3 with h4 | h4
      · exact Or.inr (Or.inr (Or.inr (Or.inr (Or.inr h4))))
      · rcases hres h4 with h1 | h1 | h1 | h1
        · exact Or.inl h1
        · exact Or.inr (Or.inl h1)
        · exact Or.inr (Or.inr (Or.inl h1))
        · exact Or.inr (Or.inr (Or.inr (Or.inl h1)))

/-- C7: output-path expansion substitutes the placeholders (job name
verbatim, timestamp with every ':' and '.' replaced by '-', the
`YYYY-MM-DD` date portion), leaves unrecognized placeholders unexpanded
without error, and resolves the result to an absolute path against the
working directory; with a colon-free template, job name, date part and
working directory the resolved path contains no raw ':' character. -/
theorem claim_C7_output_resolution :
    resolveTemplate "2024-01-15T03:00:00.000Z" "nightly"
        "outputs/{name}-{date}.txt" = "outputs/nightly-2024-01-15.txt" ∧
    resolveTemplate "2024-01-15T03:00:00.000Z" "nightly"
        "outputs/{name}-{timestamp}.txt" =
      "outputs/nightly-2024-01-15T03-00-00-000Z.txt" ∧
    resolveTemplate "2024-01-15T03:00:00.000Z" "nightly"
        "outputs/{foo}-{name}.txt" = "outputs/{foo}-nightly.txt" ∧
    (∀ (iso : String) (c : Char), c ∈ (sanitizeTimestamp iso).data →
      c ≠ ':' ∧ c ≠ '.') ∧
    (∀ cwd p : String, isAbsolutePath cwd = true →
      isAbsolutePath (pathResolve cwd p) = true) ∧
    (∀ cwd iso scheduleName template : String,
      ':' ∉ template.data → ':' ∉ scheduleName.data → ':' ∉ cwd.data →
      ':' ∉ (datePart iso).data →
      ':' ∉ (fullOutputPath cwd iso scheduleName template).data) := by
  refine ⟨by decide, by decide, by decide, ?_, ?_, ?_⟩
  · intro iso c h
    exact sanitizeTimestamp_safe_chars h
  · intro cwd p hcwd
    unfold pathResolve
    by_cases habs : isAbsolutePath p
    · rw [if_pos habs]; exact habs
    · rw [if_neg habs]
      unfold isAbsolutePath at hcwd ⊢
      cases hc : cwd.data with
      | nil => simp
      | cons a l =>
        rw [hc] at hcwd
        show (((a :: l) ++ '/' :: p.data).headD ' ' == '/') = true
        rw [List.cons_append]
        exact hcwd
  · intro cwd iso scheduleName template ht hn hc hd hmem
    rcases mem_data_fullOutputPath hmem with h | h | h | h | h | h
    · exact ht h
    · exact hn h
    · exact (sanitizeTimestamp_safe_chars h).1 rfl
    · exact hd h
    · exact hc h
    · cases h

/-- C7, witness: the absolute-path and no-colon parts at concrete inputs:
resolving `outputs/{name}-{timestamp}.txt` for `nightly` below `/work`
stays absolute and colon-free even though the raw timestamp holds ':'. -/
theorem claim_C7_witness :
    isAbsolutePath (pathResolve "/work" "outputs/a.txt") = true ∧
    ':' ∉ (fullOutputPath "/work" "2024-01-15T03:00:00.000Z" "nightly"
      "outputs/{name}-{timestamp}.txt").data :=
  ⟨claim_C7_output_resolution.2.2.2.2.1 "/work" "outputs/a.txt" (by decide),
   claim_C7_output_resolution.2.2.2.2.2 "/work" "2024-01-15T03:00:00.000Z"
     "nightly" "outputs/{name}-{timestamp}.txt" (by decide) (by decide)
     (by decide) (by decide)⟩

/-- C10: each placeholder is substituted only at its leftmost occurrence.
`replaceFirst` rewrites exactly the leftmost occurrence of the pattern
(every decomposition starts no earlier, and the suffix — holding every
later occurrence — is carried over verbatim), and on a template repeating
every placeholder twice, each second occurrence survives unexpanded. -/
theorem claim_C10_first_occurrence_only :
    (∀ (s pat repl : String) (pre suf : List Char),
      findSplit pat.data s.data = some (pre, suf) →
      replaceFirst s pat repl = ⟨pre ++ repl.data ++ suf⟩ ∧
      s.data = pre ++ pat.data ++ suf ∧
      (∀ a b : List Char, s.data = a ++ pat.data ++ b →
        pre.length ≤ a.length)) ∧
    resolveTemplate "2024-01-15T03:00:00.000Z" "job"
        "{name}/{name}-{timestamp}/{timestamp}-{date}/{date}.txt" =
      "job/{name}-2024-01-15T03-00-00-000Z/{timestamp}-2024-01-15/{date}.txt" := by
  refine ⟨?_, by decide⟩
  intro s pat repl pre suf hf
  refine ⟨?_, findSplit_eq hf, findSplit_leftmost hf⟩
  unfold replaceFirst
  rw [hf]

/-- C10, witness: on `{name}-{name}` the first `{name}` is replaced and
the second survives verbatim in the suffix. -/
theorem claim_C10_witness :
    replaceFirst "{name}-{name}" "{name}" "job" = "job-{name}" ∧
    "{name}-{name}".data = [] ++ "{name}".data ++ "-{name}".data := by
  have h := claim_C10_first_occurrence_only.1 "{name}-{name}" "{name}" "job"
    [] ("-{name}".data) (by decide)
  exact ⟨by rw [h.1]; decide, h.2.1⟩

/-- C3: every error inside the execution routine is caught at the routine
boundary — no firing lets an error escape to the trigger engine, a firing
never touches the task registry (so the job stays active), and a later
firing behaves exactly as it would have without the earlier one. -/
theorem claim_C3_failure_containment (env env2 : ExecEnv) (s s2 : Schedule)
    (st : SchedState) (n : String) :
    (executeSchedule env s).2 = none ∧
    (fireTask st env s).1 = st ∧
    (isTaskActive st n = true → isTaskActive (fireTask st env s).1 n = true) ∧
    fireTask (fireTask st env s).1 env2 s2 = fireTask st env2 s2 := by
  refine ⟨?_, rfl, fun h => h, rfl⟩
  unfold executeSchedule
  cases h : executeBody env s with
  | mk evs err => cases err <;> simp

/-- C3, witness: a firing whose executor call throws escapes no error and
leaves the job registered. -/
theorem claim_C3_witness :
    (executeSchedule ⟨true, true, none, true, true, "t", "/w"⟩
      ⟨"X", "* * * * *", true, "p", none⟩).2 = none ∧
    isTaskActive (fireTask (start (fun _ => true) SchedState.init
        [⟨"X", "* * * * *", true, "p", none⟩]).1
      ⟨true, true, none, true, true, "t", "/w"⟩
      ⟨"X", "* * * * *", true, "p", none⟩).1 "X" = true := by
  have h := claim_C3_failure_containment
    ⟨true, true, none, true, true, "t", "/w"⟩
    ⟨true, true, none, true, true, "t", "/w"⟩
    ⟨"X", "* * * * *", true, "p", none⟩
    ⟨"X", "* * * * *", true, "p", none⟩
    (start (fun _ => true) SchedState.init
      [⟨"X", "* * * * *", true, "p", none⟩]).1 "X"
  exact ⟨h.1, h.2.2.1 (by decide)⟩

/-- C4: on each firing, when the connection is ready `connect` is not
invoked; when it is not ready, `connect` is invoked before anything else
(in particular before the executor call); and when `connect` fails the
executor is never invoked and the firing is abandoned with only the
failure log. -/
theorem claim_C4_reconnect_gate (env : ExecEnv) (s : Schedule) :
    (env.isReady = true →
      ExecEv.connectCall ∉ (executeSchedule env s).1) ∧
    (env.isReady = false →
      (executeSchedule env s).1.head? = some ExecEv.connectCall) ∧
    (env.isReady = false → env.connectOk = false →
      (executeSchedule env s).1 = [ExecEv.connectCall, ExecEv.failedLog] ∧
      (∀ p, ExecEv.execCall p ∉ (executeSchedule env s).1)) := by
  obtain ⟨ready, cok, er, mok, wok, iso, cwd⟩ := env
  refine ⟨?_, ?_, ?_⟩
  · intro hr
    simp only at hr
    subst hr
    cases er with
    | none => simp [executeSchedule, executeBody]
    | some r =>
      cases ho : s.outputPath with
      | none => simp [executeSchedule, executeBody, ho]
      | some p =>
        cases mok <;> cases wok <;>
          simp [executeSchedule, executeBody, saveOutput, ho]
  · intro hr
    simp only at hr
    subst hr
    cases cok with
    | false => simp [executeSchedule, executeBody]
    | true =>
      cases er with
      | none => simp [executeSchedule, executeBody]
      | some r =>
        cases ho : s.outputPath with
        | none => simp [executeSchedule, executeBody, ho]
        | some p =>
          cases mok <;> cases wok <;>
            simp [executeSchedule, executeBody, saveOutput, ho]
  · intro hr hc
    simp only at hr hc
    subst hr
    subst hc
    exact ⟨by simp [executeSchedule, executeBody], by
      intro p
      simp [executeSchedule, executeBody]⟩

/-- C4, witness: with the connection not ready and `connect` failing, the
firing consists of the connect attempt and the failure log only — the
executor is never reached. -/
theorem claim_C4_witness :
    ExecEv.connectCall ∉ (executeSchedule
      ⟨true, true, some "r", true, true, "t", "/w"⟩
      ⟨"X", "* * * * *", true, "p", none⟩).1 ∧
    (executeSchedule ⟨false, false, some "r", true, true, "t", "/w"⟩
      ⟨"X", "* * * * *", true, "p", none⟩).1 =
      [ExecEv.connectCall, ExecEv.failedLog] ∧
    ExecEv.execCall "p" ∉ (executeSchedule
      ⟨false, false, some "r", true, true, "t", "/w"⟩
      ⟨"X", "* * * * *", true, "p", none⟩).1 := by
  have h1 := claim_C4_reconnect_gate
    ⟨true, true, some "r", true, true, "t", "/w"⟩
    ⟨"X", "* * * * *", true, "p", none⟩
  have h2 := claim_C4_reconnect_gate
    ⟨false, false, some "r", true, true, "t", "/w"⟩
    ⟨"X", "* * * * *", true, "p", none⟩
  exact ⟨h1.1 rfl, (h2.2.2 rfl rfl).1, (h2.2.2 rfl rfl).2 "p"⟩

/-- C5, counterexample to the original claim: executor succeeds, the
output write fails.  The write failure is rethrown by `saveOutput`, so
the firing lands in the outer catch: the failure log is emitted and the
success/completion log (duration and persistence status) is never
emitted — the firing is recorded as an execution failure. -/
theorem claim_C5_counterexample :
    ExecEv.saveErrorLog ∈ (executeSchedule
      ⟨true, true, some "result", true, false, "2024-01-15T03:00:00.000Z",
        "/w"⟩ ⟨"X", "* * * * *", true, "p", some "out.txt"⟩).1 ∧
    ExecEv.failedLog ∈ (executeSchedule
      ⟨true, true, some "result", true, false, "2024-01-15T03:00:00.000Z",
        "/w"⟩ ⟨"X", "* * * * *", true, "p", some "out.txt"⟩).1 ∧
    ExecEv.completedLog true ∉ (executeSchedule
      ⟨true, true, some "result", true, false, "2024-01-15T03:00:00.000Z",
        "/w"⟩ ⟨"X", "* * * * *", true, "p", some "out.txt"⟩).1 ∧
    ExecEv.completedLog false ∉ (executeSchedule
      ⟨true, true, some "result", true, false, "2024-01-15T03:00:00.000Z",
        "/w"⟩ ⟨"X", "* * * * *", true, "p", some "out.txt"⟩).1 := by
  decide

/-- C5, amended: on any firing that reaches the executor (the connection
was ready, or the reconnect succeeded) whose prompt execution succeeds
and whose job defines an output path, a persistence failure is logged as
its own distinct error by `saveOutput`, which then rethrows, so the
firing is recorded as a failed execution: the outer catch logs the
failure, the success/completion log is not emitted, and the error is
still contained at the routine boundary (nothing escapes to the trigger
engine). -/
theorem claim_C5_save_failure (env : ExecEnv) (s : Schedule) (p r : String)
    (hready : env.isReady = true ∨ env.connectOk = true)
    (hexec : env.execResult = some r) (hout : s.outputPath = some p)
    (hfail : env.mkdirOk = false ∨ env.writeOk = false) :
    ExecEv.saveErrorLog ∈ (executeSchedule env s).1 ∧
    ExecEv.failedLog ∈ (executeSchedule env s).1 ∧
    (∀ b, ExecEv.completedLog b ∉ (executeSchedule env s).1) ∧
    (executeSchedule env s).2 = none := by
  obtain ⟨ready, cok, er, mok, wok, iso, cwd⟩ := env
  simp only at hready hexec hfail
  subst hexec
  have hcase : ready = true ∨ (ready = false ∧ cok = true) := by
    cases ready
    · rcases hready with h | h
      · cases h
      · exact Or.inr ⟨rfl, h⟩
    · exact Or.inl rfl
  rcases hfail with hm | hw
  · subst hm
    rcases hcase with h | ⟨h1, h2⟩
    · subst h
      refine ⟨?_, ?_, ?_, ?_⟩ <;>
        simp [executeSchedule, executeBody, saveOutput, hout]
    · subst h1
      subst h2
      refine ⟨?_, ?_, ?_, ?_⟩ <;>
        simp [executeSchedule, executeBody, saveOutput, hout]
  · subst hw
    rcases hcase with h | ⟨h1, h2⟩
    · subst h
      cases mok <;> (refine ⟨?_, ?_, ?_, ?_⟩ <;>
        simp [executeSchedule, executeBody, saveOutput, hout])
    · subst h1
      subst h2
      cases mok <;> (refine ⟨?_, ?_, ?_, ?_⟩ <;>
        simp [executeSchedule, executeBody, saveOutput, hout])

/-- C5, witness: the amended theorem at the counterexample input. -/
theorem claim_C5_witness :
    ExecEv.saveErrorLog ∈ (executeSchedule
      ⟨true, true, some "result", true, false, "t", "/w"⟩
      ⟨"X", "* * * * *", true, "p", some "out.txt"⟩).1 ∧
    ExecEv.failedLog ∈ (executeSchedule
      ⟨true, true, some "result", true, false, "t", "/w"⟩
      ⟨"X", "* * * * *", true, "p", some "out.txt"⟩).1 ∧
    ExecEv.completedLog true ∉ (executeSchedule
      ⟨true, true, some "result", true, false, "t", "/w"⟩
      ⟨"X", "* * * * *", true, "p", some "out.txt"⟩).1 ∧
    (executeSchedule ⟨true, true, some "result", true, false, "t", "/w"⟩
      ⟨"X", "* * * * *", true, "p", some "out.txt"⟩).2 = none := by
  have h := claim_C5_save_failure
    ⟨true, true, some "result", true, false, "t", "/w"⟩
    ⟨"X", "* * * * *", true, "p", some "out.txt"⟩ "out.txt" "result"
    (Or.inl rfl) rfl rfl (Or.inr rfl)
  exact ⟨h.1, h.2.1, h.2.2.1 true, h.2.2.2⟩

/-- C1: the no-overlap guarantee fails on the code.  The trigger callback
`() => { void this.executeSchedule(schedule) }` starts the routine
unconditionally — the `Scheduler` keeps no in-flight record — so when job
X's first firing is still suspended in `await executePrompt` and the next
firing for X arrives, a second execution begins concurrently: after
`fire X, advance 0, fire X` both runs are in flight and the in-flight
count for X is 2. -/
theorem claim_C1_overlap_reachable :
    sysRun [] [SysAct.fire "X", SysAct.advance 0, SysAct.fire "X"] =
      [("X", RunPhase.awaitingExecutor), ("X", RunPhase.started)] ∧
    inflightCount "X"
      (sysRun [] [SysAct.fire "X", SysAct.advance 0, SysAct.fire "X"]) = 2 ∧
    inflightCount "X"
      (sysRun [] [SysAct.fire "X", SysAct.advance 0]) = 1 := by
  decide

/-- Deleting one key leaves the lookup of every other key unchanged. -/
lemma eraseKey_cons (k : String) (e : TaskEntry)
    (rest : List (String × TaskEntry)) (n : String) :
    eraseKey ((k, e) :: rest) n =
      if k = n then rest else (k, e) :: eraseKey rest n :=
  rfl

lemma lookupKey_eraseKey {l : List (String × TaskEntry)} {n m : String}
    (h : m ≠ n) : lookupKey (eraseKey l n) m = lookupKey l m := by
  induction l with
  | nil => rfl
  | cons p rest ih =>
    obtain ⟨k, e⟩ := p
    by_cases hk : k = n
    · rw [eraseKey_cons, if_pos hk, lookupKey_cons,
        if_neg (show ¬(k = m) from fun hkm => h (hkm.symm.trans hk))]
    · rw [eraseKey_cons, if_neg hk, lookupKey_cons, lookupKey_cons]
      by_cases hm : k = m
      · rw [if_pos hm, if_pos hm]
      · rw [if_neg hm, if_neg hm, ih]


lemma eraseKey_hasKey_self {l : List (String × TaskEntry)} {n : String}
    (hnd : keysNodup l) : hasKey (eraseKey l n) n = false := by
  induction l with
  | nil => rfl
  | cons p rest ih =>
    obtain ⟨k, e⟩ := p
    rcases List.pairwise_cons.mp hnd with ⟨hhead, htail⟩
    by_cases hk : k = n
    · rw [eraseKey_cons, if_pos hk]
      refine (hasKey_false_iff rest n).mpr ?_
      intro q hq
      have hkq : k ≠ q.1 := hhead q hq
      rw [← hk]
      exact fun hh => hkq hh.symm
    · rw [eraseKey_cons, if_neg hk]
      unfold hasKey
      rw [lookupKey_cons, if_neg hk]
      exact ih htail

lemma scheduleTask_keysNodup {v : String → Bool} {st st' : SchedState}
    {s : Schedule} (h : scheduleTask v st s = .ok st')
    (hnd : keysNodup st.tasks) : keysNodup st'.tasks := by
  have hfresh : hasKey st.tasks s.name = false := by
    unfold scheduleTask at h
    by_cases h1 : hasKey st.tasks s.name
    · rw [if_pos h1] at h; cases h
    · simpa using h1
  rw [(scheduleTask_ok_spec h).1]
  refine List.pairwise_append.mpr ⟨hnd, List.pairwise_singleton _ _, ?_⟩
  intro p hp q hq
  rw [List.mem_singleton.mp hq]
  exact (hasKey_false_iff st.tasks s.name).mp hfresh p hp

lemma startAux_keysNodup {v : String → Bool} {st : SchedState}
    {ss : List Schedule} (hnd : keysNodup st.tasks) :
    keysNodup (startAux v st ss).1.tasks := by
  induction ss generalizing st with
  | nil => exact hnd
  | cons s rest ih =>
    by_cases he : s.enabled
    · simp only [startAux, he, if_true]
      cases hs : scheduleTask v st s with
      | ok st2 => exact ih (scheduleTask_keysNodup hs hnd)
      | error e => exact hnd
    · have he' : s.enabled = false := by simpa using he
      simp only [startAux, he', Bool.false_eq_true, if_false]
      exact ih hnd

/-- C6: `stop(name)` stops the trigger of that one task and unregisters
it — afterwards the name is inactive while every other task's
registration is untouched; an unknown name only logs the warning and
changes nothing (no throw); `stop()` stops every handle, empties the
registry, and leaves `getActiveTasks()` empty. -/
theorem claim_C6_stop_semantics (st : SchedState) (n : String)
    (hnd : keysNodup st.tasks) :
    (∀ e, lookupKey st.tasks n = some e →
      (stop st (some n)).state.tasks = eraseKey st.tasks n ∧
      (stop st (some n)).stoppedHandles = [e.handle] ∧
      (stop st (some n)).warnedNotFound = false ∧
      isTaskActive (stop st (some n)).state n = false ∧
      (∀ m, m ≠ n → lookupKey (stop st (some n)).state.tasks m =
        lookupKey st.tasks m)) ∧
    (lookupKey st.tasks n = none →
      stop st (some n) = ⟨st, [], true⟩) ∧
    (stop st none).state.tasks = [] ∧
    (stop st none).stoppedHandles = st.tasks.map (fun p => p.2.handle) ∧
    getActiveTasks (stop st none).state = [] := by
  refine ⟨?_, ?_, rfl, rfl, rfl⟩
  · intro e he
    have hred : stop st (some n) =
        ⟨{ st with tasks := eraseKey st.tasks n }, [e.handle], false⟩ := by
      show (match lookupKey st.tasks n with
        | some e =>
          (⟨{ st with tasks := eraseKey st.tasks n }, [e.handle], false⟩ :
            StopResult)
        | none => ⟨st, [], true⟩) =
        ⟨{ st with tasks := eraseKey st.tasks n }, [e.handle], false⟩
      rw [he]
    rw [hred]
    exact ⟨rfl, rfl, rfl, eraseKey_hasKey_self hnd,
      fun m hm => lookupKey_eraseKey hm⟩
  · intro he
    show (match lookupKey st.tasks n with
      | some e =>
        (⟨{ st with tasks := eraseKey st.tasks n }, [e.handle], false⟩ :
          StopResult)
      | none => ⟨st, [], true⟩) = ⟨st, [], true⟩
    rw [he]

/-- C6, witness: on a scheduler running tasks `X` and `Y`, `stop("X")`
unregisters only `X` and stops only its handle; `stop("Z")` warns and
changes nothing; `stop()` empties the task list. -/
theorem claim_C6_witness :
    (stop (start (fun _ => true) SchedState.init
      [⟨"X", "* * * * *", true, "px", none⟩,
       ⟨"Y", "0 * * * *", true, "py", none⟩]).1
      (some "X")).stoppedHandles = [0] ∧
    isTaskActive (stop (start (fun _ => true) SchedState.init
      [⟨"X", "* * * * *", true, "px", none⟩,
       ⟨"Y", "0 * * * *", true, "py", none⟩]).1
      (some "X")).state "X" = false ∧
    lookupKey (stop (start (fun _ => true) SchedState.init
      [⟨"X", "* * * * *", true, "px", none⟩,
       ⟨"Y", "0 * * * *", true, "py", none⟩]).1
      (some "X")).state.tasks "Y" =
      lookupKey (start (fun _ => true) SchedState.init
      [⟨"X", "* * * * *", true, "px", none⟩,
       ⟨"Y", "0 * * * *", true, "py", none⟩]).1.tasks "Y" ∧
    stop (start (fun _ => true) SchedState.init
      [⟨"X", "* * * * *", true, "px", none⟩,
       ⟨"Y", "0 * * * *", true, "py", none⟩]).1 (some "Z") =
      ⟨(start (fun _ => true) SchedState.init
      [⟨"X", "* * * * *", true, "px", none⟩,
       ⟨"Y", "0 * * * *", true, "py", none⟩]).1, [], true⟩ ∧
    getActiveTasks (stop (start (fun _ => true) SchedState.init
      [⟨"X", "* * * * *", true, "px", none⟩,
       ⟨"Y", "0 * * * *", true, "py", none⟩]).1 none).state = [] := by
  have h := claim_C6_stop_semantics (start (fun _ => true) SchedState.init
      [⟨"X", "* * * * *", true, "px", none⟩,
       ⟨"Y", "0 * * * *", true, "py", none⟩]).1 "X" (by decide)
  have h2 := claim_C6_stop_semantics (start (fun _ => true) SchedState.init
      [⟨"X", "* * * * *", true, "px", none⟩,
       ⟨"Y", "0 * * * *", true, "py", none⟩]).1 "Z" (by decide)
  have hx := h.1 ⟨⟨"X", "* * * * *", true, "px", none⟩, 0⟩ (by decide)
  exact ⟨hx.2.1, hx.2.2.2.1, hx.2.2.2.2 "Y" (by decide),
    h2.2.1 (by decide), h.2.2.2.2⟩

/-- C9: `connect` is idempotent once connected.  Any successful `connect`
leaves `isConnected` set, and a second `connect` call on such a state
performs no connection work — no process spawn, no new transport or
client — returning the state unchanged (tools and `isReady` included)
with only the already-connected debug log. -/
theorem claim_C9_connect_idempotent (env env2 : MCPEnv) (st st' : MCPState)
    (evs : List MCPEv) (h : mcpConnect env st = (st', none, evs)) :
    st'.isConnected = true ∧
    mcpConnect env2 st' = (st', none, [MCPEv.alreadyConnectedLog]) ∧
    mcpIsReady (mcpConnect env2 st').1 = mcpIsReady st' ∧
    (mcpConnect env2 st').1.tools = st'.tools ∧
    MCPEv.spawnProcess ∉ (mcpConnect env2 st').2.2 ∧
    MCPEv.newTransport ∉ (mcpConnect env2 st').2.2 ∧
    MCPEv.newClient ∉ (mcpConnect env2 st').2.2 := by
  have h1 : st'.isConnected = true := by
    unfold mcpConnect at h
    by_cases hc : st.isConnected
    · rw [if_pos hc] at h
      have h2 : st = st' := congrArg Prod.fst h
      rw [← h2]
      exact hc
    · rw [if_neg hc] at h
      by_cases hcc : env.clientConnectOk
      · simp only [hcc, Bool.not_true, Bool.false_eq_true, if_false] at h
        cases hlt : env.listTools with
        | none =>
          rw [hlt] at h
          have h3 : (some MCPErr.connectFailed : Option MCPErr) = none :=
            congrArg (fun x => x.2.1) h
          cases h3
        | some ts =>
          rw [hlt] at h
          have h4 : (⟨true, true, true, List.foldl setTool st.tools ts,
              true⟩ : MCPState) = st' :=
            congrArg Prod.fst h
          rw [← h4]
      · have hcc2 : env.clientConnectOk = false := by simpa using hcc
        simp only [hcc2, Bool.not_false, if_true, mcpDisconnect] at h
        have h3 : (some MCPErr.connectFailed : Option MCPErr) = none :=
          congrArg (fun x => x.2.1) h
        cases h3
  have h2 : mcpConnect env2 st' = (st', none, [MCPEv.alreadyConnectedLog]) := by
    unfold mcpConnect
    rw [if_pos h1]
  refine ⟨h1, h2, ?_, ?_, ?_, ?_, ?_⟩
  · rw [h2]
  · rw [h2]
  · rw [h2]; simp
  · rw [h2]; simp
  · rw [h2]; simp

/-- C9, witness: a fresh client connects successfully (spawning the
server and discovering one tool); the second `connect` is a no-op that
keeps the state and does not spawn. -/
theorem claim_C9_witness :
    (⟨true, true, true, [⟨"read_file", "Reads a file"⟩], true⟩ :
      MCPState).isConnected = true ∧
    mcpConnect ⟨true, some []⟩
      ⟨true, true, true, [⟨"read_file", "Reads a file"⟩], true⟩ =
      (⟨true, true, true, [⟨"read_file", "Reads a file"⟩], true⟩, none,
        [MCPEv.alreadyConnectedLog]) := by
  have h := claim_C9_connect_idempotent ⟨true, some [⟨"read_file",
      "Reads a file"⟩]⟩ ⟨true, some []⟩ MCPState.init
    ⟨true, true, true, [⟨"read_file", "Reads a file"⟩], true⟩
    [MCPEv.spawnProcess, MCPEv.newTransport, MCPEv.newClient] (by decide)
  exact ⟨h.1, h.2.1⟩
